import Mathlib

/-!
Verification of the eget.wasm Node.js bridge (`eget.js`).

This file gives a shallow embedding, in Lean 4, of the pure logic of the
bridge: the diagnostic parser `parseEgetError`, the cache path codec
`urlToPath`, the permission-repair pair `shouldBeExecutable` and
`fixExecutablePermissions`, the retry loop of `Eget.download`, the output
materializer of its success branch, the argument/environment construction
handed to the WASI module, and the streaming fetcher `Eget.downloadFile`.
Text is modelled as `List Char` where the proofs need to take strings apart,
and as `String` elsewhere; the filesystem is modelled as a partial map from
paths to byte lists; platform primitives (`JSON.parse`, `URL`, `path.join`,
`chmod`) are modelled on the input classes the bridge actually feeds them,
as noted at each definition.
-/

namespace EgetWasm

/-! ## Diagnostic parser (`parseEgetError`, eget.js lines 425-445) -/

/-- Record produced by `parseEgetError`: an optional local path, an optional
missing-resource URL, and a message string, mirroring the `EgetError` shape of
`eget.d.ts`. -/
structure EgetError where
  path : Option (List Char)
  url : Option (List Char)
  error : List Char
  deriving DecidableEq

/-- Shallow embedding of the regex match `errorStr.match(/\x7b.*\x7d/s)` used by
`parseEgetError`: with the dot-all flag and a greedy `.*`, the match, when one
exists, spans from the first opening brace of the input to the last closing
brace after it. Returns `none` when the regex does not match. -/
def extractFragment (s : List Char) : Option (List Char) :=
  let afterFirst := s.dropWhile (fun c => c != '{')
  let revKept := afterFirst.reverse.dropWhile (fun c => c != '}')
  if revKept.isEmpty then none else some revKept.reverse

/-- Model of reading a JSON string literal body after its opening quote, for
the flat-object grammar handled by this embedding of `JSON.parse`: plain
characters up to the closing quote, with no escape sequences. Returns the
content together with the input remaining after the closing quote. -/
def strContent : List Char → Option (List Char × List Char)
  | [] => none
  | c :: rest =>
    if c = '"' then some ([], rest)
    else if c = '\\' then none
    else (strContent rest).map (fun p => (c :: p.1, p.2))

/-- Model of `JSON.parse` member parsing for flat objects whose keys and
values are escape-free string literals without surrounding whitespace: parses
`"k":"v"` pairs separated by commas up to the closing brace, returning the
pairs and the input remaining after that brace. The fuel argument bounds the
recursion. -/
def parseMembers : Nat → List Char → Option (List (List Char × List Char) × List Char)
  | 0, _ => none
  | fuel + 1, s =>
    match s with
    | [] => none
    | c :: rest =>
      if c ≠ '"' then none
      else
        match strContent rest with
        | none => none
        | some (k, r1) =>
          match r1 with
          | [] => none
          | c1 :: r2 =>
            if c1 ≠ ':' then none
            else
              match r2 with
              | [] => none
              | c2 :: r3 =>
                if c2 ≠ '"' then none
                else
                  match strContent r3 with
                  | none => none
                  | some (v, r4) =>
                    match r4 with
                    | [] => none
                    | c3 :: r5 =>
                      if c3 = ',' then
                        match parseMembers fuel r5 with
                        | none => none
                        | some (ps, r6) => some ((k, v) :: ps, r6)
                      else if c3 = '}' then some ([(k, v)], r5)
                      else none

/-- Model of `JSON.parse` restricted to the diagnostic grammar the sandboxed
module emits: a single flat JSON object with escape-free string keys and
values and no whitespace. Any input outside this grammar, including trailing
characters after the object, which the real `JSON.parse` likewise rejects,
yields `none`. -/
def jsonParseObj (s : List Char) : Option (List (List Char × List Char)) :=
  match s with
  | [] => none
  | c :: rest =>
    if c ≠ '{' then none
    else if rest = ['}'] then some []
    else
      match parseMembers s.length rest with
      | none => none
      | some (ps, r) => if r = [] then some ps else none

/-- Model of JavaScript property lookup on the object produced by
`JSON.parse`: with duplicate keys the later member wins, and an absent key is
`undefined`, here `none`. -/
def getField (ps : List (List Char × List Char)) (k : List Char) : Option (List Char) :=
  match ps with
  | [] => none
  | (k0, v0) :: rest =>
    match getField rest k with
    | some v => some v
    | none => if k0 = k then some v0 else none

/-- Model of the JavaScript truthiness coercion applied by `x || fallback` to
an optional string field: `undefined` and the empty string are falsy. -/
def truthy (v : Option (List Char)) : Option (List Char) :=
  match v with
  | some [] => none
  | some s => some s
  | none => none

/-- Shallow embedding of `parseEgetError` in `eget.js`: find the greedy
dot-all brace-to-brace regex match in the diagnostic text, attempt to decode
it as JSON, and build the record from its `path`, `url` and `error` fields
with JavaScript falsy fallbacks (`null`, `null`, `"unknown error"`); when
there is no match or decoding fails, fall back to a record carrying the raw
text as the message. -/
def parseEgetError (errorStr : List Char) : EgetError :=
  match extractFragment errorStr with
  | some frag =>
    match jsonParseObj frag with
    | some ps =>
      { path := truthy (getField ps "path".data)
        url := truthy (getField ps "url".data)
        error := (truthy (getField ps "error".data)).getD "unknown error".data }
    | none => { path := none, url := none, error := errorStr }
  | none => { path := none, url := none, error := errorStr }

/-- The well-formed diagnostic fragment named by claim C3. -/
def fragUE : List Char := "\x7b\"url\":\"https://x/y\",\"error\":\"e\"\x7d".data

/-- Behaviour of the greedy regex model on an embedded fragment: when the text
before the fragment contains no opening brace and the text after it contains
no closing brace, the match is exactly the fragment. -/
theorem extractFragment_append (pre frag post : List Char)
    (hpre : '{' ∉ pre) (hpost : '}' ∉ post)
    (hhead : frag.head? = some '{') (hlast : frag.getLast? = some '}') :
    extractFragment (pre ++ frag ++ post) = some frag := by
  obtain ⟨t, rfl⟩ : ∃ t, frag = '{' :: t := by
    cases frag with
    | nil => simp at hhead
    | cons a t =>
      refine ⟨t, ?_⟩
      simp only [List.head?_cons, Option.some.injEq] at hhead
      rw [hhead]
  have h1 : (pre ++ ('{' :: t) ++ post).dropWhile (fun c => c != '{') =
      ('{' :: t) ++ post := by
    rw [List.append_assoc, List.dropWhile_append_of_pos ?_]
    · simp [List.dropWhile_cons]
    · intro a ha
      simp only [bne_iff_ne, ne_eq]
      intro h
      exact hpre (h ▸ ha)
  obtain ⟨rt, hrt⟩ : ∃ rt, ('{' :: t).reverse = '}' :: rt := by
    have hh : ('{' :: t).reverse.head? = some '}' := by
      rw [List.head?_reverse]; exact hlast
    cases hr : ('{' :: t).reverse with
    | nil => rw [hr] at hh; simp at hh
    | cons a rt =>
      rw [hr] at hh
      simp only [List.head?_cons, Option.some.injEq] at hh
      exact ⟨rt, by rw [hh]⟩
  have h2 : (('{' :: t) ++ post).reverse.dropWhile (fun c => c != '}') =
      ('{' :: t).reverse := by
    rw [List.reverse_append, List.dropWhile_append_of_pos ?_]
    · rw [hrt]
      simp [List.dropWhile_cons]
    · intro a ha
      simp only [List.mem_reverse] at ha
      simp only [bne_iff_ne, ne_eq]
      intro h
      exact hpost (h ▸ ha)
  rw [extractFragment]
  simp only [h1, h2, hrt]
  simp only [List.isEmpty_cons, List.reverse_cons, ite_false, Bool.false_eq_true,
    if_false, Option.some.injEq]
  have h3 := congrArg List.reverse hrt
  rw [List.reverse_reverse, List.reverse_cons] at h3
  exact h3.symm

/-- Claim C3 is false as stated: the text below contains the well-formed
fragment `fragUE` embedded amid surrounding text (here a single trailing
closing brace), yet `parseEgetError` returns the unrecoverable fallback
record rather than a record with locator `https://x/y`, because the greedy
regex extends the match to the final closing brace and decoding that larger
span fails. -/
theorem c3_counterexample :
    parseEgetError (fragUE ++ ['}']) =
      { path := none, url := none, error := fragUE ++ ['}'] } ∧
    parseEgetError (fragUE ++ ['}']) ≠
      { path := none, url := some "https://x/y".data, error := "e".data } := by
  exact ⟨by decide, by decide⟩

/-- Claim C3 (amended): `parseEgetError` is total and never raises; the
fragment it decodes is the greedy span from the first opening brace to the
last closing brace of the text (not the first balanced fragment), so the
well-formed fragment `fragUE` embedded amid surrounding text yields the
record with locator `https://x/y`, null local path and message `e` provided
the preceding text contains no opening brace and the following text no
closing brace; and whenever no fragment is found or decoding fails, the
result is the fallback record carrying the whole text as its message. -/
theorem c3_parse_diagnostic :
    (∀ pre post : List Char, '{' ∉ pre → '}' ∉ post →
      parseEgetError (pre ++ fragUE ++ post) =
        { path := none, url := some "https://x/y".data, error := "e".data }) ∧
    (∀ s : List Char,
      (extractFragment s = none ∨
        ∃ f, extractFragment s = some f ∧ jsonParseObj f = none) →
      parseEgetError s = { path := none, url := none, error := s }) := by
  constructor
  · intro pre post hpre hpost
    have hfrag : extractFragment (pre ++ fragUE ++ post) = some fragUE :=
      extractFragment_append pre fragUE post hpre hpost (by decide) (by decide)
    have hj : jsonParseObj fragUE =
        some [("url".data, "https://x/y".data), ("error".data, "e".data)] := by
      decide
    simp only [parseEgetError, hfrag, hj]
    decide
  · intro s h
    rcases h with h | ⟨f, hf, hj⟩
    · simp only [parseEgetError, h]
    · simp only [parseEgetError, hf, hj]

/-- Witness for the C3 theorem at concrete inputs: a diagnostic line with log
text around the fragment, and a diagnostic with no embedded JSON at all. -/
theorem c3_parse_diagnostic_witness :
    parseEgetError ("log ".data ++ fragUE ++ " tail".data) =
      { path := none, url := some "https://x/y".data, error := "e".data } ∧
    parseEgetError "no json here".data =
      { path := none, url := none, error := "no json here".data } :=
  ⟨c3_parse_diagnostic.1 "log ".data " tail".data (by decide) (by decide),
   c3_parse_diagnostic.2 "no json here".data (Or.inl (by decide))⟩

/-! ## Path codec (`urlToPath`, eget.js lines 410-418) -/

/-- Model of the WHATWG `URL` parse result as consumed by `urlToPath`: the
scheme without its trailing colon, the host, the pathname, and the query
string, which `urlObj.pathname` excludes and the code therefore never sees. -/
structure URLComponents where
  scheme : List Char
  host : List Char
  pathname : List Char
  query : Option (List Char)
  deriving DecidableEq

/-- Model of one binary `path.join` step as used in `urlToPath`: the operands
are concatenated with a single separator, which is already present when the
right operand begins with a slash. This agrees with the real `path.join` on
already-normalized operands, which the well-formedness condition below
guarantees. -/
def joinP (a b : List Char) : List Char :=
  if b.head? = some '/' then a ++ b else a ++ '/' :: b

/-- Shallow embedding of `urlToPath` in `eget.js`: join the cache root with
the locator's protocol minus its trailing colon (`protocol.slice(0, -1)`),
its host, and its pathname. -/
def urlToPath (url : URLComponents) (tmpDir : List Char) : List Char :=
  joinP (joinP (joinP tmpDir ((url.scheme ++ [':']).dropLast)) url.host) url.pathname

/-- Decides that a path carries no empty segment, i.e. no two adjacent
slashes. -/
def hasNoDoubleSlash : List Char → Bool
  | [] => true
  | [_] => true
  | a :: b :: rest =>
    if a = '/' ∧ b = '/' then false else hasNoDoubleSlash (b :: rest)

/-- Well-formedness of a parsed locator: nonempty slash-free scheme and host,
and an absolute, already-normalized pathname (as the WHATWG `URL` parser
produces), on which the `path.join` model above is faithful. -/
def WellFormedURL (u : URLComponents) : Prop :=
  u.scheme ≠ [] ∧ '/' ∉ u.scheme ∧ u.host ≠ [] ∧ '/' ∉ u.host ∧
    u.pathname.head? = some '/' ∧ u.pathname ≠ ['/'] ∧
    hasNoDoubleSlash u.pathname = true

/-- Well-formedness of a locator is decidable, so that concrete locators can
be checked by evaluation. -/
instance instDecidableWellFormedURL (u : URLComponents) :
    Decidable (WellFormedURL u) := by
  unfold WellFormedURL
  exact inferInstance

/-- Cancellation around a slash separator: two decompositions of a character
list at a slash agree when neither left part contains a slash. -/
theorem append_sep_cancel {x y u v : List Char} (hx : '/' ∉ x) (hy : '/' ∉ y)
    (h : x ++ '/' :: u = y ++ '/' :: v) : x = y ∧ u = v := by
  induction x generalizing y with
  | nil =>
    cases y with
    | nil => simpa using h
    | cons b ys =>
      exfalso
      simp only [List.nil_append, List.cons_append, List.cons.injEq] at h
      exact hy (by rw [← h.1]; exact List.mem_cons_self _ _)
  | cons a xs ih =>
    cases y with
    | nil =>
      exfalso
      simp only [List.cons_append, List.nil_append, List.cons.injEq] at h
      exact hx (by rw [h.1]; exact List.mem_cons_self _ _)
    | cons b ys =>
      simp only [List.cons_append, List.cons.injEq] at h
      have hx' : '/' ∉ xs := fun hm => hx (List.mem_cons_of_mem _ hm)
      have hy' : '/' ∉ ys := fun hm => hy (List.mem_cons_of_mem _ hm)
      obtain ⟨e1, e2⟩ := ih hx' hy' h.2
      exact ⟨by rw [h.1, e1], e2⟩

/-- Cancellation at a component boundary where both right parts begin with a
slash and neither left part contains one. -/
theorem append_abs_cancel {x y u v : List Char} (hx : '/' ∉ x) (hy : '/' ∉ y)
    (hu : u.head? = some '/') (hv : v.head? = some '/')
    (h : x ++ u = y ++ v) : x = y ∧ u = v := by
  obtain ⟨u', rfl⟩ : ∃ u', u = '/' :: u' := by
    cases u with
    | nil => simp at hu
    | cons a u' =>
      simp only [List.head?_cons, Option.some.injEq] at hu
      exact ⟨u', by rw [hu]⟩
  obtain ⟨v', rfl⟩ : ∃ v', v = '/' :: v' := by
    cases v with
    | nil => simp at hv
    | cons a v' =>
      simp only [List.head?_cons, Option.some.injEq] at hv
      exact ⟨v', by rw [hv]⟩
  obtain ⟨e1, e2⟩ := append_sep_cancel hx hy h
  exact ⟨e1, by rw [e2]⟩

/-- Unfolded form of the cache path produced by `urlToPath` on a well-formed
locator: cache root, then scheme, then authority, then path, separated by
single slashes. -/
theorem urlToPath_format (u : URLComponents) (tmpDir : List Char)
    (hu : WellFormedURL u) :
    urlToPath u tmpDir =
      tmpDir ++ '/' :: u.scheme ++ '/' :: u.host ++ u.pathname := by
  obtain ⟨hs, hsn, hh, hhn, hp, hp1, hp2⟩ := hu
  have hsh : u.scheme.head? ≠ some '/' := by
    intro hcontra
    cases hsc : u.scheme with
    | nil => rw [hsc] at hcontra; simp at hcontra
    | cons a t =>
      rw [hsc] at hcontra
      simp only [List.head?_cons, Option.some.injEq] at hcontra
      refine hsn ?_
      rw [hsc, ← hcontra]
      exact List.mem_cons_self _ _
  have hhh : u.host.head? ≠ some '/' := by
    intro hcontra
    cases hhc : u.host with
    | nil => rw [hhc] at hcontra; simp at hcontra
    | cons a t =>
      rw [hhc] at hcontra
      simp only [List.head?_cons, Option.some.injEq] at hcontra
      refine hhn ?_
      rw [hhc, ← hcontra]
      exact List.mem_cons_self _ _
  rw [urlToPath, List.dropLast_concat]
  simp only [joinP, if_neg hsh, if_neg hhh, if_pos hp]

/-- Two locators differing only in their query string: claim C4 counts the
query as part of locator identity. -/
def urlQ1 : URLComponents :=
  { scheme := "https".data, host := "x".data, pathname := "/y".data,
    query := some "a=1".data }

/-- Same scheme, authority and path as `urlQ1`, different query. -/
def urlQ2 : URLComponents :=
  { scheme := "https".data, host := "x".data, pathname := "/y".data,
    query := some "b=2".data }

/-- Claim C4 is false as stated: two distinct well-formed locators that differ
only in their query map to the same cache path, because `urlObj.pathname`
excludes the query and `urlToPath` therefore drops it. -/
theorem c4_counterexample :
    urlQ1 ≠ urlQ2 ∧ WellFormedURL urlQ1 ∧ WellFormedURL urlQ2 ∧
    urlToPath urlQ1 "tmp".data = urlToPath urlQ2 "tmp".data :=
  ⟨by decide, by decide, by decide, rfl⟩

/-- Claim C4 (amended): `urlToPath` is a pure deterministic function returning
`<cacheRoot>/<scheme>/<authority>/<path>` with the scheme's trailing delimiter
removed, and it is injective on the scheme, authority and path components of
well-formed locators; the optional query, which `urlObj.pathname` excludes, is
dropped and cannot be part of the injectivity domain. -/
theorem c4_urlToPath_deterministic_injective :
    (∀ u tmpDir, WellFormedURL u →
      urlToPath u tmpDir =
        tmpDir ++ '/' :: u.scheme ++ '/' :: u.host ++ u.pathname) ∧
    (∀ u1 u2 tmpDir, WellFormedURL u1 → WellFormedURL u2 →
      urlToPath u1 tmpDir = urlToPath u2 tmpDir →
      u1.scheme = u2.scheme ∧ u1.host = u2.host ∧ u1.pathname = u2.pathname) := by
  refine ⟨fun u t hu => urlToPath_format u t hu, ?_⟩
  intro u1 u2 t h1 h2 heq
  rw [urlToPath_format u1 t h1, urlToPath_format u2 t h2] at heq
  rw [List.append_assoc, List.append_assoc, List.append_assoc,
    List.append_assoc] at heq
  have heq' := List.append_cancel_left heq
  simp only [List.cons_append, List.cons.injEq, true_and] at heq'
  have heq'' : u1.scheme ++ '/' :: (u1.host ++ u1.pathname) =
      u2.scheme ++ '/' :: (u2.host ++ u2.pathname) := by
    simpa [List.cons_append] using heq'
  obtain ⟨e1, e2⟩ := append_sep_cancel h1.2.1 h2.2.1 heq''
  obtain ⟨e3, e4⟩ := append_abs_cancel h1.2.2.2.1 h2.2.2.2.1
    h1.2.2.2.2.1 h2.2.2.2.2.1 e2
  exact ⟨e1, e3, e4⟩

/-- Witness for the C4 theorem at a concrete locator and cache root. -/
theorem c4_urlToPath_deterministic_injective_witness :
    urlToPath urlQ1 "tmp".data =
      "tmp".data ++ '/' :: urlQ1.scheme ++ '/' :: urlQ1.host ++ urlQ1.pathname ∧
    (urlQ1.scheme = urlQ1.scheme ∧ urlQ1.host = urlQ1.host ∧
      urlQ1.pathname = urlQ1.pathname) :=
  ⟨c4_urlToPath_deterministic_injective.1 urlQ1 "tmp".data (by decide),
   c4_urlToPath_deterministic_injective.2 urlQ1 urlQ1 "tmp".data
     (by decide) (by decide) rfl⟩

/-! ## Permission repair (`shouldBeExecutable` lines 453-474,
`fixExecutablePermissions` lines 480-499) -/

/-- Shallow embedding of `shouldBeExecutable` in `eget.js`: names ending in
`.deb`, `.1` or `.txt` are never executable; otherwise a file should be
executable when its name ends in `.exe` or `.appimage`, has no extension, or
its current mode already has any execute bit set. -/
def shouldBeExecutable (fileName : String) (mode : Nat) : Bool :=
  if fileName.endsWith ".deb" || fileName.endsWith ".1" || fileName.endsWith ".txt" then
    false
  else
    fileName.endsWith ".exe" || fileName.endsWith ".appimage" ||
      !(fileName.contains '.') || decide (mode &&& 0o111 ≠ 0)

/-- Model of `chmod(filePath, newMode)` acting on a stat mode word: the low
twelve permission bits are replaced by `newMode` (which is below `0o1000` at
the call site) while the file-type bits above them are preserved. -/
def chmodMode (mode newMode : Nat) : Nat := 2 ^ 12 * (mode / 2 ^ 12) + newMode

/-- Shallow embedding of `fixExecutablePermissions` in `eget.js`, as a
function from the file's stat mode to its resulting mode: on win32 the
function returns immediately; otherwise, when `shouldBeExecutable` holds, the
execute bits `0o111` are added to the low nine permission bits via `chmod`,
skipping the `chmod` when the mode is already correct. -/
def fixExecutablePermissions (win32 : Bool) (fileName : String) (mode : Nat) : Nat :=
  if win32 then mode
  else if shouldBeExecutable fileName mode then
    let currentMode := mode &&& 0o777
    let newMode := currentMode ||| 0o111
    if currentMode ≠ newMode then chmodMode mode newMode else mode
  else mode

/-- Masking with a constant below `2 ^ 12` ignores bits at and above the
twelfth position. -/
theorem and_low_of_add_high (t p q : Nat) (hp : p < 2 ^ 12) (hq : q < 2 ^ 12) :
    (2 ^ 12 * t + p) &&& q = p &&& q := by
  apply Nat.eq_of_testBit_eq
  intro i
  simp only [Nat.testBit_and]
  by_cases hi : i < 12
  · rw [Nat.testBit_mul_pow_two_add t hp i, if_pos hi]
  · have hqb : q.testBit i = false :=
      Nat.testBit_lt_two_pow
        (lt_of_lt_of_le hq (Nat.pow_le_pow_right (by norm_num) (by omega)))
    simp [hqb]

/-- Masking with `0o777` is the identity below `2 ^ 9`. -/
theorem and_777_of_lt {a : Nat} (ha : a < 2 ^ 9) : a &&& 0o777 = a := by
  apply Nat.eq_of_testBit_eq
  intro i
  simp only [Nat.testBit_and]
  by_cases hi : i < 9
  · have h511 : (0o777 : Nat).testBit i = true := by
      have h := Nat.testBit_two_pow_sub_one 9 i
      norm_num at h
      simp [h, hi]
    simp [h511]
  · have ha' : a.testBit i = false :=
      Nat.testBit_lt_two_pow
        (lt_of_lt_of_le ha (Nat.pow_le_pow_right (by norm_num) (by omega)))
    simp [ha']

/-- Claim C9 (confirmed): permission repair is idempotent — for every file
name, platform flag and initial stat mode, applying
`fixExecutablePermissions` twice yields the same mode as applying it once. -/
theorem c9_fixExecutablePermissions_idempotent
    (win32 : Bool) (fileName : String) (mode : Nat) :
    fixExecutablePermissions win32 fileName
        (fixExecutablePermissions win32 fileName mode) =
      fixExecutablePermissions win32 fileName mode := by
  cases win32 with
  | true => simp [fixExecutablePermissions]
  | false =>
    have fixpt : ∀ m : Nat,
        m &&& 0o777 = (m &&& 0o777) ||| 0o111 ∨
          shouldBeExecutable fileName m = false →
        fixExecutablePermissions false fileName m = m := by
      intro m hm
      rw [fixExecutablePermissions]
      simp only [Bool.false_eq_true, if_false]
      rcases hm with hm | hm
      · by_cases hsm : shouldBeExecutable fileName m = true
        · rw [if_pos hsm, if_neg (fun hne => hne hm)]
        · rw [if_neg hsm]
      · rw [if_neg (by simp [hm])]
    have hinner : fixExecutablePermissions false fileName mode = mode ∨
        fixExecutablePermissions false fileName mode =
          chmodMode mode ((mode &&& 0o777) ||| 0o111) := by
      rw [fixExecutablePermissions]
      simp only [Bool.false_eq_true, if_false]
      by_cases hs : shouldBeExecutable fileName mode = true
      · rw [if_pos hs]
        by_cases hc : mode &&& 0o777 ≠ (mode &&& 0o777) ||| 0o111
        · rw [if_pos hc]; exact Or.inr rfl
        · rw [if_neg hc]; exact Or.inl rfl
      · rw [if_neg hs]; exact Or.inl rfl
    rcases hinner with h | h
    · rw [h]; exact h
    · rw [h]
      apply fixpt
      left
      have hnm : ((mode &&& 0o777) ||| 0o111) < 2 ^ 9 :=
        Nat.or_lt_two_pow
          (lt_of_le_of_lt Nat.and_le_right (by norm_num)) (by norm_num)
      have h511 : chmodMode mode ((mode &&& 0o777) ||| 0o111) &&& 0o777 =
          (mode &&& 0o777) ||| 0o111 := by
        rw [chmodMode, and_low_of_add_high _ _ _ (lt_trans hnm (by norm_num))
          (by norm_num)]
        exact and_777_of_lt hnm
      have hor : ((mode &&& 0o777) ||| 0o111) ||| 0o111 =
          (mode &&& 0o777) ||| 0o111 := by
        rw [Nat.or_assoc, Nat.or_self]
      rw [h511]
      exact hor.symm

/-! ## Orchestrator retry loop (`Eget.download`, eget.js lines 884-997) -/

/-- Result of one `Eget.run` invocation as consumed by the retry loop of
`Eget.download`: the success flag and, on failure, the optional
missing-resource URL extracted from the diagnostic by `parseEgetError`. -/
structure RunResult where
  success : Bool
  url : Option (List Char)
  deriving DecidableEq

/-- Fixed retry bound of `Eget.download`: `const maxAttempts = 10`. -/
def maxAttempts : Nat := 10

/-- Exit paths of `Eget.download`: the success return, the immediate `false`
return after an unrecoverable diagnostic (no URL), the immediate `false`
return after a failed `downloadFile`, and the `false` return when the retry
budget is exhausted. -/
inductive DownloadOutcome where
  | success
  | unrecoverable
  | fetchFailed
  | maxAttemptsExceeded
  deriving DecidableEq

/-- Shallow embedding of the `while (attempts < maxAttempts)` loop of
`Eget.download`, parameterized by an oracle for the result of the k-th `run`
invocation and an oracle for the success of the k-th `downloadFile` call. It
carries the `attempts` counter of the code together with the number of `run`
and `downloadFile` invocations made so far, and returns the exit path taken
plus the final invocation counts. -/
def downloadLoop (runStep : Nat → RunResult) (fetchOk : Nat → Bool)
    (attempts runCalls fetchCalls : Nat) : DownloadOutcome × Nat × Nat :=
  if h : attempts < maxAttempts then
    let r := runStep runCalls
    if r.success then (DownloadOutcome.success, runCalls + 1, fetchCalls)
    else
      match r.url with
      | some _ =>
        if fetchOk fetchCalls then
          downloadLoop runStep fetchOk (attempts + 1) (runCalls + 1)
            (fetchCalls + 1)
        else (DownloadOutcome.fetchFailed, runCalls + 1, fetchCalls + 1)
      | none => (DownloadOutcome.unrecoverable, runCalls + 1, fetchCalls)
  else (DownloadOutcome.maxAttemptsExceeded, runCalls, fetchCalls)
termination_by maxAttempts - attempts
decreasing_by omega

/-- Entry into the retry loop of `Eget.download`: `attempts = 0` and no
invocations made yet. -/
def download (runStep : Nat → RunResult) (fetchOk : Nat → Bool) :
    DownloadOutcome × Nat × Nat :=
  downloadLoop runStep fetchOk 0 0 0

/-- When every run fails with a URL and every fetch succeeds, the loop spends
its whole remaining budget, making one further run and one further fetch per
remaining attempt. -/
theorem downloadLoop_exhausts (runStep : Nat → RunResult) (fetchOk : Nat → Bool)
    (hrun : ∀ k, (runStep k).success = false)
    (hurl : ∀ k, ∃ u, (runStep k).url = some u)
    (hfetch : ∀ k, fetchOk k = true) :
    ∀ d attempts rc fc, attempts + d = maxAttempts →
      downloadLoop runStep fetchOk attempts rc fc =
        (DownloadOutcome.maxAttemptsExceeded, rc + d, fc + d) := by
  intro d
  induction d with
  | zero =>
    intro a rc fc ha
    rw [downloadLoop, dif_neg (by omega)]
    simp
  | succ n ih =>
    intro a rc fc ha
    obtain ⟨u, hu⟩ := hurl rc
    rw [downloadLoop, dif_pos (by omega)]
    simp only [hrun rc, hu, hfetch fc, Bool.false_eq_true, if_false, if_true]
    rw [ih (a + 1) (rc + 1) (fc + 1) (by omega)]
    simp only [Prod.mk.injEq, true_and]
    omega

/-- Claim C1 (confirmed): when every run exits nonzero with a new, distinct
locator and every fetch of that locator succeeds, `Eget.download` exits
through the max-attempts path after exactly `maxAttempts = 10` run
invocations (and 10 fetches), never more. -/
theorem c1_retry_bound (runStep : Nat → RunResult) (fetchOk : Nat → Bool)
    (urls : Nat → List Char)
    (hrun : ∀ k, runStep k = { success := false, url := some (urls k) })
    (hdist : ∀ j k, j ≠ k → urls j ≠ urls k)
    (hfetch : ∀ k, fetchOk k = true) :
    download runStep fetchOk =
      (DownloadOutcome.maxAttemptsExceeded, maxAttempts, maxAttempts) := by
  have h := downloadLoop_exhausts runStep fetchOk
    (fun k => by rw [hrun k]) (fun k => ⟨urls k, by rw [hrun k]⟩) hfetch
    maxAttempts 0 0 0 (by omega)
  simpa [download] using h

/-- Witness for the C1 theorem: a stub run oracle that always fails and
requests the k-th of an injective family of locators, with every fetch
succeeding. -/
theorem c1_retry_bound_witness :
    download (fun k => { success := false, url := some (List.replicate k 'a') })
        (fun _ => true) =
      (DownloadOutcome.maxAttemptsExceeded, maxAttempts, maxAttempts) :=
  c1_retry_bound _ _ (fun k => List.replicate k 'a') (fun _ => rfl)
    (fun j k hjk h => hjk (by simpa using congrArg List.length h))
    (fun _ => rfl)

/-- When the first `n` runs fail with a URL and the first `n` fetches
succeed, the loop reaches attempt `n` having made `n` runs and `n` fetches. -/
theorem downloadLoop_reach (runStep : Nat → RunResult) (fetchOk : Nat → Bool) :
    ∀ n, n ≤ maxAttempts →
    (∀ k, k < n → (runStep k).success = false ∧
      (∃ u, (runStep k).url = some u) ∧ fetchOk k = true) →
    download runStep fetchOk = downloadLoop runStep fetchOk n n n := by
  intro n
  induction n with
  | zero => intro _ _; rfl
  | succ m ih =>
    intro hm hpre
    obtain ⟨hs, ⟨u, hu⟩, hf⟩ := hpre m (by omega)
    rw [ih (by omega) (fun k hk => hpre k (by omega))]
    rw [downloadLoop, dif_pos (by omega)]
    simp only [hs, hu, hf, Bool.false_eq_true, if_false, if_true]

/-- Claim C2 (confirmed): if, at the attempt the loop has reached, the parsed
diagnostic yields a null locator, or the fetch for its locator fails, then
`Eget.download` returns failure immediately after that attempt, with no
further run and no further fetch invocations: fetcher errors are never
retried by the bridge itself. -/
theorem c2_terminal_failure (runStep : Nat → RunResult) (fetchOk : Nat → Bool)
    (n : Nat) (hn : n < maxAttempts)
    (hpre : ∀ k, k < n → (runStep k).success = false ∧
      (∃ u, (runStep k).url = some u) ∧ fetchOk k = true)
    (hfail : (runStep n).success = false) :
    ((runStep n).url = none →
      download runStep fetchOk = (DownloadOutcome.unrecoverable, n + 1, n)) ∧
    (∀ u, (runStep n).url = some u → fetchOk n = false →
      download runStep fetchOk = (DownloadOutcome.fetchFailed, n + 1, n + 1)) := by
  have hreach := downloadLoop_reach runStep fetchOk n (by omega) hpre
  constructor
  · intro hu
    rw [hreach, downloadLoop, dif_pos hn]
    simp only [hfail, hu, Bool.false_eq_true, if_false]
  · intro u hu hf
    rw [hreach, downloadLoop, dif_pos hn]
    simp only [hfail, hu, hf, Bool.false_eq_true, if_false]

/-- Witness for the C2 theorem: a run oracle whose second attempt produces an
unrecoverable diagnostic, and a run oracle whose second fetch fails. -/
theorem c2_terminal_failure_witness :
    download
        (fun k => if k = 0 then { success := false, url := some ['u'] }
          else { success := false, url := none })
        (fun _ => true) =
      (DownloadOutcome.unrecoverable, 2, 1) ∧
    download (fun _ => { success := false, url := some ['u'] })
        (fun k => k = 0) =
      (DownloadOutcome.fetchFailed, 2, 2) := by
  constructor
  · exact (c2_terminal_failure _ _ 1 (by decide)
      (fun k hk => by
        have hk0 : k = 0 := by omega
        subst hk0
        exact ⟨rfl, ⟨['u'], rfl⟩, rfl⟩)
      rfl).1 rfl
  · exact (c2_terminal_failure _ _ 1 (by decide)
      (fun k hk => by
        have hk0 : k = 0 := by omega
        subst hk0
        exact ⟨rfl, ⟨['u'], rfl⟩, by decide⟩)
      rfl).2 ['u'] rfl (by decide)

/-! ## Output materializer (success branch of `Eget.download`,
eget.js lines 904-953) -/

/-- Model of one `path.join(base, name)` step on a relative name, as used to
build host destination paths in the success branch of `Eget.download`:
concatenation with a single separator. -/
def joinS (base name : String) : String := base ++ "/" ++ name

/-- Shallow embedding of the `toIsSubdirectory` condition of `Eget.download`:
a requested name is treated as a directory fan-out target when it is present
and the caller asked for `extractAll`, or asked for `all` and more than one
entry was produced. -/
def toIsSubdirectory (toOpt : Option String) (extractAll all : Bool)
    (numItems : Nat) : Bool :=
  toOpt.isSome && (extractAll || (all && decide (numItems > 1)))

/-- Shallow embedding of the per-entry `finalItemPathOnHost` computation of
`Eget.download`: under a requested name, fan-out places the entry inside the
requested directory, otherwise the requested name is the entry's destination
itself; without a requested name the original entry name is used. -/
def finalItemPathOnHost (cwd : String) (toOpt : Option String) (isSub : Bool)
    (itemName : String) : String :=
  match toOpt with
  | some t => if isSub then joinS (joinS cwd t) itemName else joinS cwd t
  | none => joinS cwd itemName

/-- Success-branch materialization plan of `Eget.download`: the flag is the
function's `true` return value and the list pairs each produced top-level
entry with the host destination it is moved to; zero entries yield success
with no moves. -/
def materializeSuccess (cwd : String) (toOpt : Option String)
    (extractAll all : Bool) (items : List String) :
    Bool × List (String × String) :=
  if items.isEmpty then (true, [])
  else
    (true, items.map (fun itemName =>
      (itemName, finalItemPathOnHost cwd toOpt
        (toIsSubdirectory toOpt extractAll all items.length) itemName)))

/-- Claim C8 (confirmed): a successful run whose workspace contains zero
top-level entries returns success (`true`) without raising and without moving
any file into the caller's destination, distinguishing zero-output success
from failure. -/
theorem c8_zero_output_success (cwd : String) (toOpt : Option String)
    (extractAll all : Bool) :
    materializeSuccess cwd toOpt extractAll all [] = (true, []) := rfl

/-- Claim C7 is false as stated: with a requested name, two produced entries,
and neither `extractAll` nor `all` requested, the entry count exceeds one yet
both entries are placed at `destinationCwd/<requestedName>` itself, not at
`destinationCwd/<requestedName>/<entryName>`. -/
theorem c7_counterexample :
    materializeSuccess "cwd" (some "dir") false false ["a", "b"] =
      (true, [("a", "cwd/dir"), ("b", "cwd/dir")]) ∧
    ("cwd/dir" : String) ≠ "cwd/dir/a" := by
  constructor
  · decide
  · decide

/-- Claim C7 (amended): with a requested name, fan-out into
`destinationCwd/<requestedName>/<entryName>` happens exactly when the caller
asked for multi-file extraction (`extractAll`), or asked for `all` and the
entry count exceeds one; in every other case — in particular a single entry
without fan-out — the entry is placed at `destinationCwd/<requestedName>`
regardless of its original name. -/
theorem c7_placement (cwd t itemName : String) (extractAll all : Bool)
    (numItems : Nat) :
    ((extractAll || (all && decide (numItems > 1))) = true →
      finalItemPathOnHost cwd (some t)
          (toIsSubdirectory (some t) extractAll all numItems) itemName =
        joinS (joinS cwd t) itemName) ∧
    ((extractAll || (all && decide (numItems > 1))) = false →
      finalItemPathOnHost cwd (some t)
          (toIsSubdirectory (some t) extractAll all numItems) itemName =
        joinS cwd t) := by
  constructor <;> intro h <;>
    simp [finalItemPathOnHost, toIsSubdirectory, h]

/-- Witness for the C7 theorem: fan-out under `extractAll` with three entries
places an entry inside the requested directory, and a single entry without
fan-out is renamed to the requested name. -/
theorem c7_placement_witness :
    finalItemPathOnHost "cwd" (some "dir")
        (toIsSubdirectory (some "dir") true false 3) "f1" =
      joinS (joinS "cwd" "dir") "f1" ∧
    finalItemPathOnHost "cwd" (some "tool")
        (toIsSubdirectory (some "tool") false false 1) "bin" =
      joinS "cwd" "tool" :=
  ⟨(c7_placement "cwd" "dir" "f1" true false 3).1 (by decide),
   (c7_placement "cwd" "tool" "bin" false false 1).2 (by decide)⟩

/-! ## Argument vector and environment of the sandboxed module
(`Eget.download` lines 848-881, `Eget.run` lines 734-748) -/

/-- Caller options of `Eget.download` that influence the argument vector, as
destructured at the top of the function; absent string options are `none`. -/
structure DownloadOptions where
  tag : Option String
  preRelease : Bool
  source : Bool
  system : Option String
  file : Option String
  all : Bool
  quiet : Bool
  downloadOnly : Bool
  upgrade : Bool
  asset : Option String
  verify : Option String
  removeArchive : Bool
  extractAll : Bool
  toOpt : Option String

/-- Flag portion of the argument vector built by `Eget.download`, before the
forced `--to /` override and the repository argument are appended. -/
def buildArgsFront (o : DownloadOptions) : List String :=
  ["--non-interactive"]
    ++ (match o.tag with | some t => ["--tag", t] | none => [])
    ++ (if o.preRelease then ["--pre-release"] else [])
    ++ (if o.source then ["--source"] else [])
    ++ (match o.system with | some s => ["--system", s] | none => [])
    ++ (match o.file with | some f => ["--file", f] | none => [])
    ++ (if o.all then ["--all"] else [])
    ++ (if o.quiet then ["--quiet"] else [])
    ++ (if o.downloadOnly then ["--download-only"] else [])
    ++ (if o.upgrade then ["--upgrade-only"] else [])
    ++ (match o.asset with | some a => ["--asset", a] | none => [])
    ++ (match o.verify with | some v => ["--verify-sha256", v] | none => [])
    ++ (if o.removeArchive then ["--remove-archive"] else [])
    ++ (if o.extractAll then ["--all"] else [])

/-- Shallow embedding of the argument vector `Eget.download` hands to
`Eget.run` (which prepends only the program name `eget.wasm`): the flags,
then the forced `--to /`, then the repository. -/
def buildArgs (o : DownloadOptions) (repo : String) : List String :=
  buildArgsFront o ++ ["--to", "/"] ++ [repo]

/-- Model of the environment constructed by `Eget.run` for the WASI instance:
the host environment spread with `EGET_BIN: undefined`, which node's WASI
setup omits from the module environment, so the variable is stripped. -/
def runEnv (processEnv : String → Option String) : String → Option String :=
  fun key => if key = "EGET_BIN" then none else processEnv key

/-- Claim C10 (confirmed): the argument vector built by `Eget.download`
always begins with `--non-interactive` and always ends with `--to /` followed
by the repository argument; it does not depend on the caller-supplied `to`
value, which is handled host-side only; and `EGET_BIN` is stripped from the
module environment. -/
theorem c10_run_invariants (o : DownloadOptions) (repo : String)
    (processEnv : String → Option String) :
    (buildArgs o repo).head? = some "--non-interactive" ∧
    (∃ front, buildArgs o repo = front ++ ["--to", "/", repo]) ∧
    (∀ t, buildArgs { o with toOpt := t } repo = buildArgs o repo) ∧
    runEnv processEnv "EGET_BIN" = none := by
  refine ⟨?_, ⟨buildArgsFront o, by simp [buildArgs]⟩, fun t => rfl, rfl⟩
  simp [buildArgs, buildArgsFront]

/-! ## Resource fetcher (`Eget.downloadFile`, eget.js lines 602-709) -/

/-- Observable action of one `Eget.downloadFile` call: an `onProgress`
callback invocation carrying the bytes received so far and the total (the
`-1` sentinel when unknown), or the write of one chunk of the response body
to the destination stream. -/
inductive FetchEvent where
  | progress (bytesSoFar : Nat) (total : Int)
  | write (chunk : List Nat)
  deriving DecidableEq

/-- How the streamed response body ends: normal end of stream, a stream or
pipeline error, or the abort fired by the timeout. -/
inductive StreamEnd where
  | done
  | streamError
  | aborted
  deriving DecidableEq

/-- Behaviour of the network during one `downloadFile` call: the `fetch`
promise rejects with a transport error, the response has a non-success
status, the response body is null, or a body with an optional advertised
`Content-Length` delivers the given chunks and then ends as described. -/
inductive FetchResponse where
  | netError
  | httpError (status : Nat)
  | nullBody
  | body (contentLength : Option Nat) (chunks : List (List Nat))
      (ending : StreamEnd)
  deriving DecidableEq

/-- Classified error thrown by `downloadFile`: the timeout message, the
network-error message, a re-thrown HTTP status error, or the generic failure
message. -/
inductive FetchError where
  | timedOut
  | networkError
  | http (status : Nat)
  | failed
  deriving DecidableEq

/-- Host filesystem model: a partial map from paths to file contents. -/
def FileSystem : Type := String → Option (List Nat)

/-- Point update of the filesystem model; `fsSet fs p none` is the
`rm(p, \x7b force: true \x7d)` of the cleanup path, total also when the file is
absent. -/
def fsSet (fs : FileSystem) (p : String) (v : Option (List Nat)) : FileSystem :=
  fun q => if q = p then v else fs q

/-- Total of the advertised `Content-Length`, `-1` when the header is
absent, as computed by `downloadFile`. -/
def totalBytesOf (contentLength : Option Nat) : Int :=
  match contentLength with
  | some n => (n : Int)
  | none => -1

/-- Events produced by the progress transform for each delivered chunk: the
received-byte counter is advanced, `onProgress` fires with the new count, and
the chunk is then passed downstream to the file stream. -/
def chunkEvents (tb : Int) : List (List Nat) → Nat → List FetchEvent
  | [], _ => []
  | c :: cs, acc =>
    FetchEvent.progress (acc + c.length) tb :: FetchEvent.write c ::
      chunkEvents tb cs (acc + c.length)

/-- Number of body bytes delivered by a chunk list. -/
def totalLen (chunks : List (List Nat)) : Nat := (chunks.map List.length).sum

/-- Shallow embedding of `Eget.downloadFile`: on a good response it emits the
initial zero progress call, streams the chunks through the progress
transform into the destination file, and emits the final progress call with
`finalTotal` (the received count when the total was unknown); on any failure
its catch block destroys the stream, removes the destination file with
`force`, and throws the classified error. Returns the call result, the
resulting filesystem, and the event trace. -/
def downloadFile (filePath : String) (resp : FetchResponse) (fs : FileSystem) :
    Except FetchError Unit × FileSystem × List FetchEvent :=
  match resp with
  | FetchResponse.netError =>
    (Except.error FetchError.networkError, fsSet fs filePath none, [])
  | FetchResponse.httpError s =>
    (Except.error (FetchError.http s), fsSet fs filePath none, [])
  | FetchResponse.nullBody =>
    (Except.error FetchError.failed, fsSet fs filePath none, [])
  | FetchResponse.body cl chunks ending =>
    let totalBytes := totalBytesOf cl
    let evs := FetchEvent.progress 0 totalBytes :: chunkEvents totalBytes chunks 0
    match ending with
    | StreamEnd.done =>
      let receivedBytes := totalLen chunks
      let finalTotal : Int :=
        if totalBytes = -1 then (receivedBytes : Int) else totalBytes
      (Except.ok (), fsSet fs filePath (some chunks.flatten),
        evs ++ [FetchEvent.progress receivedBytes finalTotal])
    | StreamEnd.streamError =>
      (Except.error FetchError.failed, fsSet fs filePath none, evs)
    | StreamEnd.aborted =>
      (Except.error FetchError.timedOut, fsSet fs filePath none, evs)

/-- Claim C5 (confirmed): every failing `downloadFile` call — non-success
HTTP status, transport error, timeout/abort, or stream failure, whether or
not writing had begun — leaves no file at the destination path: the catch
block removes it (with `force`, so absence is not itself an error) before the
error is raised. -/
theorem c5_fetch_cleanup (filePath : String) (resp : FetchResponse)
    (fs : FileSystem) (e : FetchError)
    (h : (downloadFile filePath resp fs).1 = Except.error e) :
    (downloadFile filePath resp fs).2.1 filePath = none := by
  cases resp with
  | netError => simp [downloadFile, fsSet]
  | httpError s => simp [downloadFile, fsSet]
  | nullBody => simp [downloadFile, fsSet]
  | body cl chunks ending =>
    cases ending with
    | done => simp [downloadFile] at h
    | streamError => simp [downloadFile, fsSet]
    | aborted => simp [downloadFile, fsSet]

/-- Witness for the C5 theorem: a stream that fails after two bytes were
delivered on top of a filesystem that already had a file at the destination
leaves no file there. -/
theorem c5_fetch_cleanup_witness :
    (downloadFile "dest"
        (FetchResponse.body (some 4) [[1, 2]] StreamEnd.streamError)
        (fun _ => some [9])).2.1 "dest" = none :=
  c5_fetch_cleanup "dest"
    (FetchResponse.body (some 4) [[1, 2]] StreamEnd.streamError)
    (fun _ => some [9]) FetchError.failed rfl

/-- Progress calls of an event trace, in order. -/
def progressCalls (evs : List FetchEvent) : List (Nat × Int) :=
  evs.filterMap (fun e =>
    match e with
    | FetchEvent.progress b t => some (b, t)
    | FetchEvent.write _ => none)

/-- Progress calls distribute over trace concatenation. -/
theorem progressCalls_append (l1 l2 : List FetchEvent) :
    progressCalls (l1 ++ l2) = progressCalls l1 ++ progressCalls l2 := by
  simp [progressCalls]

/-- A leading progress event contributes its call up front. -/
theorem progressCalls_cons_progress (b : Nat) (t : Int) (evs : List FetchEvent) :
    progressCalls (FetchEvent.progress b t :: evs) =
      (b, t) :: progressCalls evs := by
  simp [progressCalls]

/-- Running byte counts reported for a chunk list starting from `acc`. -/
def sums : List (List Nat) → Nat → List Nat
  | [], _ => []
  | c :: cs, acc => (acc + c.length) :: sums cs (acc + c.length)

/-- The progress calls of the chunk events are the running byte counts, each
paired with the advertised total. -/
theorem progressCalls_chunkEvents (tb : Int) :
    ∀ (cs : List (List Nat)) (acc : Nat),
      progressCalls (chunkEvents tb cs acc) =
        (sums cs acc).map (fun b => (b, tb)) := by
  intro cs
  induction cs with
  | nil => intro acc; rfl
  | cons c cs ih =>
    intro acc
    simp [chunkEvents, sums, progressCalls] at ih ⊢
    exact ih (acc + c.length)

/-- The running byte counts starting from `acc`, with `acc` in front and the
final total appended, are non-decreasing. -/
theorem chain_sums_concat :
    ∀ (cs : List (List Nat)) (acc : Nat),
      List.Chain' (· ≤ ·) ((acc :: sums cs acc) ++ [acc + totalLen cs]) := by
  intro cs
  induction cs with
  | nil =>
    intro acc
    simp [sums, totalLen]
  | cons c cs ih =>
    intro acc
    have htot : acc + totalLen (c :: cs) = (acc + c.length) + totalLen cs := by
      simp [totalLen]; omega
    rw [htot]
    simp only [sums, List.cons_append]
    exact List.Chain'.cons (by omega) (ih (acc + c.length))

/-- The last of the running byte counts (with `acc` in front) is `acc` plus
the total delivered length. -/
theorem sums_getLast? :
    ∀ (cs : List (List Nat)) (acc : Nat),
      (acc :: sums cs acc).getLast? = some (acc + totalLen cs) := by
  intro cs
  induction cs with
  | nil => intro acc; simp [sums, totalLen]
  | cons c cs ih =>
    intro acc
    have htot : acc + totalLen (c :: cs) = (acc + c.length) + totalLen cs := by
      simp [totalLen]; omega
    rw [htot]
    simp only [sums]
    rw [List.getLast?_cons_cons]
    exact ih (acc + c.length)

/-- Claim C6 (confirmed): for every successful fetch, the first progress
call reports zero bytes and precedes every write; the reported byte counts
are non-decreasing; when the remote advertises a total equal to the bytes
actually delivered, the final call reports that total as both current and
total; and when the total is unknown, every call but the last carries the
`-1` sentinel and the last reports the received count as both fields. -/
theorem c6_fetch_progress (filePath : String) (cl : Option Nat)
    (chunks : List (List Nat)) (fs : FileSystem) :
    (downloadFile filePath (FetchResponse.body cl chunks StreamEnd.done)
        fs).2.2.head? = some (FetchEvent.progress 0 (totalBytesOf cl)) ∧
    List.Chain' (· ≤ ·)
      ((progressCalls (downloadFile filePath
          (FetchResponse.body cl chunks StreamEnd.done) fs).2.2).map
        Prod.fst) ∧
    (∀ n, cl = some n → totalLen chunks = n →
      (progressCalls (downloadFile filePath
          (FetchResponse.body cl chunks StreamEnd.done) fs).2.2).getLast? =
        some (n, (n : Int))) ∧
    (cl = none →
      (∀ c ∈ (progressCalls (downloadFile filePath
          (FetchResponse.body cl chunks StreamEnd.done) fs).2.2).dropLast,
        c.2 = -1) ∧
      (progressCalls (downloadFile filePath
          (FetchResponse.body cl chunks StreamEnd.done) fs).2.2).getLast? =
        some (totalLen chunks, (totalLen chunks : Int))) := by
  have htrace : (downloadFile filePath
      (FetchResponse.body cl chunks StreamEnd.done) fs).2.2 =
      (FetchEvent.progress 0 (totalBytesOf cl) ::
        chunkEvents (totalBytesOf cl) chunks 0) ++
      [FetchEvent.progress (totalLen chunks)
        (if totalBytesOf cl = -1 then (totalLen chunks : Int)
         else totalBytesOf cl)] := by
    simp [downloadFile]
  have hcalls : progressCalls ((FetchEvent.progress 0 (totalBytesOf cl) ::
      chunkEvents (totalBytesOf cl) chunks 0) ++
      [FetchEvent.progress (totalLen chunks)
        (if totalBytesOf cl = -1 then (totalLen chunks : Int)
         else totalBytesOf cl)]) =
      ((0, totalBytesOf cl) ::
        (sums chunks 0).map (fun b => (b, totalBytesOf cl))) ++
      [(totalLen chunks,
        if totalBytesOf cl = -1 then (totalLen chunks : Int)
        else totalBytesOf cl)] := by
    rw [progressCalls_append, progressCalls_cons_progress,
      progressCalls_chunkEvents (totalBytesOf cl) chunks 0]
    rfl
  refine ⟨?_, ?_, ?_, ?_⟩
  · rw [htrace]; rfl
  · rw [htrace, hcalls]
    have hmap : (((0, totalBytesOf cl) ::
        (sums chunks 0).map (fun b => (b, totalBytesOf cl))) ++
        [(totalLen chunks,
          if totalBytesOf cl = -1 then (totalLen chunks : Int)
          else totalBytesOf cl)]).map Prod.fst =
        (0 :: sums chunks 0) ++ [totalLen chunks] := by
      simp [List.map_append, List.map_map, Function.comp_def]
    rw [hmap]
    have := chain_sums_concat chunks 0
    simpa using this
  · intro n hn hlen
    rw [htrace, hcalls, List.getLast?_concat]
    have : totalBytesOf cl ≠ -1 := by
      rw [hn, totalBytesOf]
      omega
    rw [if_neg this, hn, hlen, totalBytesOf]
  · intro hn
    constructor
    · intro c hc
      rw [htrace, hcalls, List.dropLast_concat] at hc
      rcases List.mem_cons.mp hc with h | h
      · rw [h, hn, totalBytesOf]
      · obtain ⟨b, _, hb⟩ := List.mem_map.mp h
        rw [← hb, hn, totalBytesOf]
    · rw [htrace, hcalls, List.getLast?_concat, hn, totalBytesOf]
      simp

/-- Witness for the C6 theorem: a known-size fetch delivering three bytes in
two chunks ends at (3, 3), and an unknown-size fetch of one chunk reports -1
until the final call, which reports the received count as both fields. -/
theorem c6_fetch_progress_witness :
    (progressCalls (downloadFile "dest"
        (FetchResponse.body (some 3) [[9, 9], [9]] StreamEnd.done)
        (fun _ => none)).2.2).getLast? = some (3, (3 : Int)) ∧
    (progressCalls (downloadFile "dest"
        (FetchResponse.body none [[7]] StreamEnd.done)
        (fun _ => none)).2.2).getLast? = some (1, (1 : Int)) :=
  ⟨(c6_fetch_progress "dest" (some 3) [[9, 9], [9]]
      (fun _ => none)).2.2.1 3 rfl (by decide),
   by
    have h := (c6_fetch_progress "dest" none [[7]] (fun _ => none)).2.2.2 rfl
    simpa [totalLen] using h.2⟩

end EgetWasm
